import Mathlib

/-!
Verification of the strapi entity-validator core
(`packages/strapi/lib/services/entity-validator/index.js`).

The development shallowly embeds the validator-builder: JavaScript values
become `Value`, yup validator nodes become the syntax tree `VTree`, and the
builder functions (`addMinMax`, `addRequiredValidation`, `addDefault`,
`preventCast`, `createComponentValidator`, `createDzValidator`,
`createRelationValidator`, `createSimpleAttributeValidator`,
`createAttributeValidator`, `createModelValidator`, `createValidateEntity`)
are translated one-to-one from the source.  Validator execution (`runV`) is
modelled from the spec's description of the external yup engine: defaults
fill absent values, presence modifiers reject nil values, checks are
collected across the whole tree without aborting early, and the entry point
wraps any failure in a single aggregate bad-request error.
-/

set_option autoImplicit false

namespace EntityValidator

/-- A JavaScript value as seen by the validator: `undef` is
`undefined`/absence, `null` is an explicit null, and objects are ordered
association lists of fields. -/
inductive Value where
  | undef
  | null
  | str (s : String)
  | num (n : Int)
  | bool (b : Bool)
  | arr (xs : List Value)
  | obj (fields : List (String × Value))

/-- Is the value `undefined`? -/
def Value.isUndef : Value → Bool
  | .undef => true
  | _ => false

/-- Is the value an explicit `null`? -/
def Value.isNull : Value → Bool
  | .null => true
  | _ => false

/-- Is the value nil in the lodash sense (`null` or `undefined`)? -/
def Value.isNil : Value → Bool
  | .undef => true
  | .null => true
  | _ => false

/-- Field lookup in an object's field list; a missing key reads as
`undefined`, like property access in JavaScript. -/
def getField (k : String) : List (String × Value) → Value
  | [] => .undef
  | kv :: rest => if kv.1 = k then kv.2 else getField k rest

/-- Embedding of `_.get(data, attrName)`: reading a property of a
non-object yields `undefined`. -/
def getAttr (data : Value) (k : String) : Value :=
  match data with
  | .obj fs => getField k fs
  | _ => Value.undef

/-- One field-level validation error: the path into the record and a
message. -/
structure Err where
  path : List String
  message : String
  deriving DecidableEq, Repr

/-- A yup validator node, embedded syntactically.  Base nodes (`mixed`,
`str`, `leaf`, `object`, `arrayOf`) carry the shape; the remaining
constructors record one chained modifier each (`.notNil()`, `.notNull()`,
`.nullable()`, `.required()`, `.default(d)`, `.min(n)`, `.max(n)`,
`.oneOf(names)`, the cast-prevention `.transform`, and `.concat`).
`arrayOf` holds the `yup.lazy` element builder, which may throw a
schema-resolution error when it runs. -/
inductive VTree where
  | mixed
  | str
  | leaf (typeName : String)
  | object (shape : List (String × VTree))
  | arrayOf (elem : Value → Except String VTree)
  | notNil (v : VTree)
  | notNull (v : VTree)
  | nullable (v : VTree)
  | required (v : VTree)
  | default (d : Value) (v : VTree)
  | min (n : Int) (v : VTree)
  | max (n : Int) (v : VTree)
  | oneOf (names : List String) (v : VTree)
  | preventCast (v : VTree)
  | concat (a b : VTree)

/-- Modelled from the spec: run the child validators of an object shape.
Each field is validated against the field list (a missing field reads as
`undefined`), errors are concatenated in shape order, and a field whose
normalized value is `undefined` stays absent from the normalized object. -/
def runFieldsWith (rv : VTree → List String → Value → Except String (List Err × Value))
    (path : List String) (fields : List (String × Value)) :
    List (String × VTree) → Except String (List Err × List (String × Value))
  | [] => .ok ([], [])
  | (k, tv) :: rest => do
    let (es, nv) ← rv tv (path ++ [k]) (getField k fields)
    let (es2, nfs) ← runFieldsWith rv path fields rest
    .ok (es ++ es2, if nv.isUndef then nfs else (k, nv) :: nfs)

/-- Modelled from the spec: run a sequence validator's element builder over
the array elements.  Each element's validator is built lazily from the
element itself (`yup.lazy`); a thrown build error aborts the whole run. -/
def runElemsWith (rv : VTree → List String → Value → Except String (List Err × Value))
    (elem : Value → Except String VTree) (path : List String) :
    Nat → List Value → Except String (List Err × List Value)
  | _, [] => .ok ([], [])
  | i, x :: xs => do
    let t ← elem x
    let (es, nv) ← rv t (path ++ [toString i]) x
    let (es2, nvs) ← runElemsWith rv elem path (i + 1) xs
    .ok (es ++ es2, nv :: nvs)

/-- Modelled from the spec: execution of a validator node against a value,
collecting all field errors in one pass (abort-early disabled) and
producing the normalized value.  Nil values pass base type checks (only the
presence modifiers reject them), `default` fills an `undefined` value,
`min`/`max` bound array lengths, `oneOf` checks string membership, the
cast-prevention transform passes the original value through, and `concat`
runs both schemas.  The fuel argument bounds recursion depth; it only
decreases on actual structure, so any concrete run has enough fuel.
A `.error` result is a thrown (non-validation) exception. -/
def runV : Nat → VTree → List String → Value → Except String (List Err × Value)
  | 0, _, _, _ => .error "Out of fuel"
  | fuel + 1, t, path, val =>
    match t with
    | .mixed => .ok ([], val)
    | .leaf _ => .ok ([], val)
    | .str =>
      if val.isNil then .ok ([], val)
      else
        match val with
        | .str _ => .ok ([], val)
        | _ => .ok ([⟨path, "must be a string"⟩], val)
    | .object shape =>
      if val.isNil then .ok ([], val)
      else
        match val with
        | .obj fields => do
          let (es, nfs) ← runFieldsWith (runV fuel) path fields shape
          let unknown := fields.filter (fun kv => !(shape.any (fun sv => sv.1 == kv.1)))
          .ok (es, .obj (nfs ++ unknown))
        | _ => .ok ([⟨path, "must be an object"⟩], val)
    | .arrayOf elem =>
      if val.isNil then .ok ([], val)
      else
        match val with
        | .arr xs => do
          let (es, nvs) ← runElemsWith (runV fuel) elem path 0 xs
          .ok (es, .arr nvs)
        | _ => .ok ([⟨path, "must be an array"⟩], val)
    | .notNil v =>
      if val.isNil then .ok ([⟨path, "must be defined"⟩], val)
      else runV fuel v path val
    | .notNull v =>
      if val.isNull then .ok ([⟨path, "must be non-null"⟩], val)
      else runV fuel v path val
    | .nullable v =>
      if val.isNull then .ok ([], val)
      else runV fuel v path val
    | .required v =>
      if val.isNil then .ok ([⟨path, "is a required field"⟩], val)
      else runV fuel v path val
    | .default d v =>
      if val.isUndef then runV fuel v path d
      else runV fuel v path val
    | .min n v => do
      let (es, nv) ← runV fuel v path val
      match val with
      | .arr xs =>
        .ok ((if (xs.length : Int) < n then
          es ++ [⟨path, "must have at least " ++ toString n ++ " items"⟩] else es), nv)
      | _ => .ok (es, nv)
    | .max n v => do
      let (es, nv) ← runV fuel v path val
      match val with
      | .arr xs =>
        .ok ((if n < (xs.length : Int) then
          es ++ [⟨path, "must have at most " ++ toString n ++ " items"⟩] else es), nv)
      | _ => .ok (es, nv)
    | .oneOf names v => do
      let (es, nv) ← runV fuel v path val
      if val.isUndef then .ok (es, nv)
      else
        match val with
        | .str s =>
          .ok ((if names.contains s then es
            else es ++ [⟨path, "must be one of the registered components"⟩]), nv)
        | _ => .ok (es ++ [⟨path, "must be one of the registered components"⟩], nv)
    | .preventCast v => do
      let (es, _) ← runV fuel v path val
      .ok (es, val)
    | .concat a b => do
      let (e1, v1) ← runV fuel a path val
      let (e2, v2) ← runV fuel b path v1
      .ok (e1 ++ e2, v2)

/-- The two operation modes of the entry points (`createOrUpdate`). -/
inductive Mode where
  | creation
  | update
  deriving DecidableEq, Repr

/-- An attribute descriptor.  Optional JavaScript properties are `Option`s
(absent or falsy collapses to `none`); `required` and `repeatable` model
truthiness of the corresponding flags; `default` is the descriptor's
`default` property (`undef` when absent); `min`/`max` are `some` exactly
when the property is an integer number (`Number.isInteger`). -/
structure Attr where
  type : Option String := none
  required : Bool := false
  default : Value := .undef
  min : Option Int := none
  max : Option Int := none
  repeatable : Bool := false
  collection : Option String := none
  model : Option String := none
  plugin : Option String := none
  component : Option String := none

/-- A content-type schema: its attributes (in declaration order) and the
set of non-writable attribute names.  `nonWritable` embeds the external
`contentTypesUtils.getNonWritableAttributes(model)` lookup, which is
outside this core. -/
structure Model where
  attributes : List (String × Attr)
  nonWritable : List String

/-- Modelled from the spec: the external read-only registries consumed by
the core — `strapi.db.getModelsByAttribute(attr)` (its first result),
`strapi.getModel(uid)`, and the keys of `strapi.components`. -/
structure Registry where
  modelsByAttribute : Attr → Option Model
  getModel : String → Option Model
  components : List String

/-- Embedding of `isMedia`: `(attr.collection || attr.model) === 'file' &&
attr.plugin === 'upload'`. -/
def isMedia (attr : Attr) : Bool :=
  (match attr.collection with
   | some c => some c
   | none => attr.model) = some "file" && attr.plugin = some "upload"

/-- Embedding of `isSimpleAttribute`. -/
def isSimpleAttribute (attr : Attr) : Bool :=
  attr.collection = none && attr.model = none &&
    attr.type ≠ some "component" && attr.type ≠ some "dynamiczone"

/-- Is the data a non-empty array (`Array.isArray(data) && data.length > 0`)? -/
def isNonEmptyArray : Value → Bool
  | .arr (_ :: _) => true
  | _ => false

/-- Embedding of `addMinMax`: the min bound is applied only when `min` is
an integer and the attribute is required or the incoming data is a
non-empty array; the max bound is applied whenever `max` is an integer. -/
def addMinMax (attr : Attr) (validator : VTree) (data : Value) : VTree :=
  let v1 :=
    match attr.min with
    | some m =>
      if attr.required || isNonEmptyArray data then VTree.min m validator else validator
    | none => validator
  match attr.max with
  | some m => VTree.max m v1
  | none => v1

/-- Embedding of `addRequiredValidation`: a required node gets `.notNil()`
in creation mode and `.notNull()` in update mode; a non-required node is
marked `.nullable()`. -/
def addRequiredValidation (createOrUpdate : Mode) (required : Bool) (validator : VTree) : VTree :=
  if required then
    match createOrUpdate with
    | .creation => VTree.notNil validator
    | .update => VTree.notNull validator
  else VTree.nullable validator

/-- Embedding of `addDefault`: creation mode defaults a non-required
repeatable component or dynamic zone to `[]` and every other attribute to
`attr.default`; update mode sets the default to `undefined`. -/
def addDefault (createOrUpdate : Mode) (attr : Attr) (validator : VTree) : VTree :=
  match createOrUpdate with
  | .creation =>
    if ((attr.type = some "component" && attr.repeatable) ||
        attr.type = some "dynamiczone") && !attr.required then
      VTree.default (.arr []) validator
    else
      VTree.default attr.default validator
  | .update => VTree.default .undef validator

/-- Embedding of `preventCast`: the transform that returns the original
value. -/
def preventCast (validator : VTree) : VTree :=
  VTree.preventCast validator

/-- Modelled from the spec: the external leaf-validator registry
(`./validators`), a pluggable map keyed by primitive type name.  Only its
key set matters to this core (`attr.type in validators`). -/
def validators : List String :=
  ["string", "text", "richtext", "password", "email", "enumeration", "boolean",
   "uid", "json", "integer", "biginteger", "float", "decimal",
   "date", "time", "datetime", "timestamp"]

/-- Embedding of `createSimpleAttributeValidator`: delegate to the leaf
registry (falling back to `yup.mixed()`), then apply required with the
effective flag `!isDraft && attr.required`. -/
def createSimpleAttributeValidator (createOrUpdate : Mode) (attr : Attr) (isDraft : Bool) : VTree :=
  let validator :=
    match attr.type with
    | some t => if t ∈ validators then VTree.leaf t else VTree.mixed
    | none => VTree.mixed
  addRequiredValidation createOrUpdate (!isDraft && attr.required) validator

/-- Embedding of `createRelationValidator`: a sequence of opaque references
when the incoming data is an array, a single opaque reference otherwise,
with required applied via `!isDraft && attr.required`. -/
def createRelationValidator (createOrUpdate : Mode) (attr : Attr) (data : Value)
    (isDraft : Bool) : VTree :=
  let validator :=
    match data with
    | .arr _ => VTree.arrayOf (fun _ => .ok VTree.mixed)
    | _ => VTree.mixed
  addRequiredValidation createOrUpdate (!isDraft && attr.required) validator

/-- Embedding of the dynamic-zone entry schema: `yup.object().shape({
__component: yup.string().required().oneOf(_.keys(strapi.components))
}).notNull()`. -/
def dzEntryShape (reg : Registry) : VTree :=
  VTree.notNull (VTree.object
    [("__component", VTree.oneOf reg.components (VTree.required VTree.str))])

/-- Embedding of `strapi.getModel(_.get(item, '__component'))`: resolve a
dynamic-zone entry's discriminator in the registry (a registry keyed by
string uids resolves nothing for a non-string discriminator). -/
def dzResolve (reg : Registry) (item : Value) : Option Model :=
  match getAttr item "__component" with
  | .str s => reg.getModel s
  | _ => none

/-- Build an object shape by running the given per-attribute builder over
the attribute list, propagating a thrown build error. -/
def buildShapeWith (build : String × Attr → Except String VTree) :
    List (String × Attr) → Except String (List (String × VTree))
  | [] => .ok []
  | kv :: rest => do
    let v ← build kv
    let shape ← buildShapeWith build rest
    .ok ((kv.1, v) :: shape)

mutual

/-- Embedding of `createComponentValidator`: resolve the target model via
the registry (throwing `Validation failed: Model not found` when absent);
a repeatable component becomes a sequence whose lazily built elements are
model validators forced non-null, with required always `true` and min/max
applied; a singular component recurses once with required
`!isDraft && attr.required`.  The fuel bounds recursion through the
registry's (possibly cyclic) schema graph. -/
def createComponentValidator (createOrUpdate : Mode) (reg : Registry) :
    Nat → Attr → Value → Bool → Except String VTree
  | 0, _, _, _ => .error "Out of fuel"
  | fuel + 1, attr, data, isDraft =>
    match reg.modelsByAttribute attr with
    | none => .error "Validation failed: Model not found"
    | some model =>
      if attr.repeatable = true then
        let validator := VTree.arrayOf (fun item =>
          (createModelValidator createOrUpdate reg fuel (some model) item isDraft).map
            VTree.notNull)
        .ok (addMinMax attr (addRequiredValidation createOrUpdate true validator) data)
      else
        (createModelValidator createOrUpdate reg fuel (some model) data isDraft).map
          (fun v => addRequiredValidation createOrUpdate (!isDraft && attr.required) v)

/-- Embedding of `createDzValidator`: a sequence whose lazily built element
validator looks up the entry's discriminator; a resolved discriminator
concatenates the entry shape with the component's model validator, an
unresolved one checks only the entry shape.  Required is always `true` and
min/max is applied to the sequence. -/
def createDzValidator (createOrUpdate : Mode) (reg : Registry) :
    Nat → Attr → Value → Bool → Except String VTree
  | 0, _, _, _ => .error "Out of fuel"
  | fuel + 1, attr, data, isDraft =>
    let validator := VTree.arrayOf (fun item =>
      match dzResolve reg item with
      | some model =>
        (createModelValidator createOrUpdate reg fuel (some model) item isDraft).map
          (fun mv => VTree.concat (dzEntryShape reg) mv)
      | none => .ok (dzEntryShape reg))
    .ok (addMinMax attr (addRequiredValidation createOrUpdate true validator) data)

/-- Embedding of `createAttributeValidator`: dispatch on the attribute's
category (media, simple, component, dynamic zone, relation), apply cast
prevention to the non-simple structured categories, and apply the default
modifier to every category. -/
def createAttributeValidator (createOrUpdate : Mode) (reg : Registry) :
    Nat → Attr → Value → Bool → Except String VTree
  | 0, _, _, _ => .error "Out of fuel"
  | fuel + 1, attr, data, isDraft => do
    let validator ←
      if isMedia attr then pure VTree.mixed
      else if isSimpleAttribute attr then
        pure (createSimpleAttributeValidator createOrUpdate attr isDraft)
      else do
        let inner ←
          if attr.type = some "component" then
            createComponentValidator createOrUpdate reg fuel attr data isDraft
          else if attr.type = some "dynamiczone" then
            createDzValidator createOrUpdate reg fuel attr data isDraft
          else
            pure (createRelationValidator createOrUpdate attr data isDraft)
        pure (preventCast inner)
    pure (addDefault createOrUpdate attr validator)

/-- Embedding of `createModelValidator`: an object shape over the model's
attributes (empty when the model is absent) minus the non-writable ones,
each attribute validated against its slice of the record. -/
def createModelValidator (createOrUpdate : Mode) (reg : Registry) :
    Nat → Option Model → Value → Bool → Except String VTree
  | 0, _, _, _ => .error "Out of fuel"
  | fuel + 1, model, data, isDraft =>
    let nonWritableAttributes := match model with | some m => m.nonWritable | none => []
    let attrs := match model with | some m => m.attributes | none => []
    let writable := attrs.filter (fun kv => !(nonWritableAttributes.contains kv.1))
    (buildShapeWith (fun kv =>
        createAttributeValidator createOrUpdate reg fuel kv.2 (getAttr data kv.1) isDraft)
      writable).map VTree.object

end

/-- The aggregate bad-request error raised by the entry points
(`strapi.errors.badRequest('ValidationError', { errors: ... })`). -/
structure BadRequest where
  name : String
  errors : List Err
  deriving DecidableEq, Repr

/-- A raw failure caught by the entry point's catch block: either a yup
validation failure carrying field errors, or a thrown JavaScript error
(for example the schema-resolution throw). -/
inductive RawFailure where
  | yupErr (errs : List Err)
  | jsError (msg : String)

/-- Modelled from the spec: `formatYupErrors` (strapi-utils, outside this
core) turns a yup validation failure into the ordered list of per-field
errors; a plain thrown error carries no field errors, so it formats to the
empty list. -/
def formatYupErrors : RawFailure → List Err
  | .yupErr errs => errs
  | .jsError _ => []

/-- Embedding of `createValidateEntity`: build the model validator over the
schema and record, force the top-level node to require presence, run the
validation collecting all errors, and wrap any failure — thrown build error
or field errors — in a single `ValidationError` bad request. -/
def createValidateEntity (createOrUpdate : Mode) (reg : Registry) (fuel : Nat)
    (model : Option Model) (data : Value) (isDraft : Bool) : Except BadRequest Value :=
  match (do
      let validator ← createModelValidator createOrUpdate reg fuel model data isDraft
      runV fuel (VTree.required validator) [] data) with
  | .error m => .error ⟨"ValidationError", formatYupErrors (.jsError m)⟩
  | .ok (errs, out) =>
    if errs.isEmpty then .ok out
    else .error ⟨"ValidationError", formatYupErrors (.yupErr errs)⟩

/-- Embedding of `validateEntityCreation`. -/
def validateEntityCreation (reg : Registry) (fuel : Nat) (model : Option Model)
    (data : Value) (isDraft : Bool) : Except BadRequest Value :=
  createValidateEntity .creation reg fuel model data isDraft

/-- Embedding of `validateEntityUpdate`. -/
def validateEntityUpdate (reg : Registry) (fuel : Nat) (model : Option Model)
    (data : Value) (isDraft : Bool) : Except BadRequest Value :=
  createValidateEntity .update reg fuel model data isDraft

/-- Stated from the claim's words, for comparison with `addDefault`: the
creation-mode default is the descriptor's `default`, except that a
repeatable component or a dynamic zone whose `required` flag is false
defaults to the empty collection. -/
def specCreationDefault (attr : Attr) : Value :=
  if ((attr.type = some "component" ∧ attr.repeatable = true) ∨
      attr.type = some "dynamiczone") ∧ attr.required = false then
    .arr []
  else attr.default

/-- A registry that resolves nothing and knows no components. -/
def emptyReg : Registry := ⟨fun _ => none, fun _ => none, []⟩

/-- A component schema with no attributes. -/
def compModel : Model := ⟨[], []⟩

/-- A registry resolving every component-reference attribute to the empty
component schema. -/
def compReg : Registry :=
  ⟨fun a => if a.component.isSome then some compModel else none, fun _ => none, []⟩

/-- A repeatable component attribute with `min: 1` (the `tags` attribute of
the spec's scenario). -/
def tagsMin1Attr : Attr :=
  { type := some "component", repeatable := true, min := some 1, component := some "basic.tag" }

/-- A singular component attribute (the `target` attribute of the spec's
scenario). -/
def targetAttr : Attr :=
  { type := some "component", component := some "basic.tag" }

/-- The scenario schema with `tags` a repeatable component bounded by
`min: 1` and `target` a singular component. -/
def tagsTargetModel : Model := ⟨[("tags", tagsMin1Attr), ("target", targetAttr)], []⟩

/-- A repeatable component attribute with `min: 2`. -/
def tagsMin2Attr : Attr :=
  { type := some "component", repeatable := true, min := some 2, component := some "basic.tag" }

/-- Schema with a single repeatable component attribute bounded by `min: 2`. -/
def tagsMin2Model : Model := ⟨[("tags", tagsMin2Attr)], []⟩

/-- A required repeatable component attribute with `min: 1`. -/
def tagsReqMin1Attr : Attr :=
  { type := some "component", repeatable := true, required := true, min := some 1,
    component := some "basic.tag" }

/-- Schema with a required repeatable component attribute bounded by `min: 1`. -/
def tagsReqMin1Model : Model := ⟨[("tags", tagsReqMin1Attr)], []⟩

/-- A required string attribute. -/
def reqStringAttr : Attr := { type := some "string", required := true }

/-- A schema with three independent required string attributes. -/
def threeFieldModel : Model :=
  ⟨[("a", reqStringAttr), ("b", reqStringAttr), ("c", reqStringAttr)], []⟩

/-- A component attribute whose target schema no registry resolves. -/
def unresolvedCompAttr : Attr := { type := some "component", component := some "missing.comp" }

/-- A schema referencing an unresolvable component. -/
def unresolvedModel : Model := ⟨[("cmp", unresolvedCompAttr)], []⟩

/-- A dynamic-zone attribute. -/
def dzAttr : Attr := { type := some "dynamiczone" }

/-- A schema with one dynamic-zone attribute. -/
def dzModel : Model := ⟨[("body", dzAttr)], []⟩

/-- A registry with one registered component, `comp.a`, resolving to the
empty component schema. -/
def dzReg : Registry :=
  ⟨fun _ => none, fun s => if s = "comp.a" then some compModel else none, ["comp.a"]⟩

/-- A required media attribute (`model: 'file'`, `plugin: 'upload'`). -/
def mediaAttr : Attr := { required := true, model := some "file", plugin := some "upload" }

/-- A schema with one required media attribute. -/
def mediaModel : Model := ⟨[("pic", mediaAttr)], []⟩

/-- A schema with a writable attribute `a` and a non-writable attribute
`sys`. -/
def nonWritableModel : Model :=
  ⟨[("a", reqStringAttr), ("sys", reqStringAttr)], ["sys"]⟩

/-- Does a validator tree carry a min bound at its top modifier chain
(looking through the max wrapper that `addMinMax` may add outside it)? -/
def hasMinBound : VTree → Bool
  | .min _ _ => true
  | .max _ v => hasMinBound v
  | _ => false

/-- Does a validator tree carry a max bound at its top? -/
def hasMaxBound : VTree → Bool
  | .max _ _ => true
  | _ => false

end EntityValidator

namespace EntityValidator

/-- Unfolding a successful `Except` bind. -/
theorem exceptBind_ok {α β : Type} (x : Except String α) (f : α → Except String β) (b : β) :
    (x >>= f) = .ok b ↔ ∃ a, x = .ok a ∧ f a = .ok b := by
  cases x <;> simp [Bind.bind, Except.bind]

/-- A successful model validator is always an object shape. -/
theorem createModelValidator_ok_object (m : Mode) (reg : Registry) (fuel : Nat)
    (mo : Option Model) (data : Value) (isDraft : Bool) (v : VTree)
    (h : createModelValidator m reg fuel mo data isDraft = .ok v) :
    ∃ shape, v = .object shape := by
  cases fuel with
  | zero => simp [createModelValidator] at h
  | succ f =>
    simp only [createModelValidator, Except.map] at h
    cases hb : buildShapeWith (fun kv =>
        createAttributeValidator m reg f kv.2 (getAttr data kv.1) isDraft)
        ((match mo with | some mm => mm.attributes | none => []).filter
          (fun kv => !((match mo with | some mm => mm.nonWritable | none => []).contains kv.1))) with
    | error e => rw [hb] at h; simp at h
    | ok shape => rw [hb] at h; simp at h; exact ⟨shape, h.symm⟩

theorem runV_mixed_undef (g : Nat) (p : List String) :
    runV (g + 1) VTree.mixed p .undef = .ok ([], .undef) := by simp [runV]

theorem runV_leaf_undef (g : Nat) (s : String) (p : List String) :
    runV (g + 1) (.leaf s) p .undef = .ok ([], .undef) := by simp [runV]

theorem runV_object_undef (g : Nat) (shape : List (String × VTree)) (p : List String) :
    runV (g + 1) (.object shape) p .undef = .ok ([], .undef) := by
  simp [runV, Value.isNil]

theorem runV_arrayOf_undef (g : Nat) (e : Value → Except String VTree) (p : List String) :
    runV (g + 1) (.arrayOf e) p .undef = .ok ([], .undef) := by
  simp [runV, Value.isNil]

theorem runV_notNull_undef (g : Nat) (w : VTree) (p : List String)
    (hw : runV g w p .undef = .ok ([], .undef)) :
    runV (g + 1) (.notNull w) p .undef = .ok ([], .undef) := by
  simp [runV, Value.isNull, hw]

theorem runV_nullable_undef (g : Nat) (w : VTree) (p : List String)
    (hw : runV g w p .undef = .ok ([], .undef)) :
    runV (g + 1) (.nullable w) p .undef = .ok ([], .undef) := by
  simp [runV, Value.isNull, hw]

theorem runV_min_undef (g : Nat) (n : Int) (w : VTree) (p : List String)
    (hw : runV g w p .undef = .ok ([], .undef)) :
    runV (g + 1) (.min n w) p .undef = .ok ([], .undef) := by
  simp [runV, Bind.bind, Except.bind, hw]

theorem runV_max_undef (g : Nat) (n : Int) (w : VTree) (p : List String)
    (hw : runV g w p .undef = .ok ([], .undef)) :
    runV (g + 1) (.max n w) p .undef = .ok ([], .undef) := by
  simp [runV, Bind.bind, Except.bind, hw]

theorem runV_preventCast_undef (g : Nat) (w : VTree) (p : List String)
    (hw : runV g w p .undef = .ok ([], .undef)) :
    runV (g + 1) (.preventCast w) p .undef = .ok ([], .undef) := by
  simp [runV, Bind.bind, Except.bind, hw]

theorem runV_default_undef (g : Nat) (w : VTree) (p : List String)
    (hw : runV g w p .undef = .ok ([], .undef)) :
    runV (g + 1) (.default .undef w) p .undef = .ok ([], .undef) := by
  simp [runV, Value.isUndef, hw]

/-- Any `addMinMax` wrapping of a validator that accepts `undefined`
cleanly still accepts `undefined` cleanly. -/
theorem runV_addMinMax_undef (attr : Attr) (w : VTree) (data : Value)
    (hw : ∀ g p, runV (g + 2) w p .undef = .ok ([], .undef)) (g : Nat) (p : List String) :
    runV (g + 6) (addMinMax attr w data) p .undef = .ok ([], .undef) := by
  rcases hmax : attr.max with _ | m <;> rcases hmin : attr.min with _ | n <;>
    simp only [addMinMax, hmax, hmin]
  · exact hw (g + 4) p
  · by_cases hg : (attr.required || isNonEmptyArray data) = true
    · rw [if_pos hg]
      exact runV_min_undef (g + 5) n w p (hw (g + 3) p)
    · rw [if_neg hg]
      exact hw (g + 4) p
  · exact runV_max_undef (g + 5) m w p (hw (g + 3) p)
  · by_cases hg : (attr.required || isNonEmptyArray data) = true
    · rw [if_pos hg]
      exact runV_max_undef (g + 5) m _ p (runV_min_undef (g + 4) n w p (hw (g + 2) p))
    · rw [if_neg hg]
      exact runV_max_undef (g + 5) m w p (hw (g + 3) p)

end EntityValidator

namespace EntityValidator

/-- In update mode a component attribute's validator accepts `undefined`
cleanly: the presence modifier is `.notNull()` or `.nullable()`, never
`.notNil()`. -/
theorem runV_update_comp_undef (reg : Registry) (f : Nat) (attr : Attr) (data : Value)
    (isDraft : Bool) (inner : VTree)
    (h : createComponentValidator .update reg f attr data isDraft = .ok inner)
    (g : Nat) (p : List String) :
    runV (g + 6) inner p .undef = .ok ([], .undef) := by
  cases f with
  | zero => simp [createComponentValidator] at h
  | succ f' =>
    simp only [createComponentValidator] at h
    cases hr : reg.modelsByAttribute attr with
    | none => rw [hr] at h; simp at h
    | some mo =>
      simp only [hr] at h
      by_cases hrep : attr.repeatable = true
      · rw [if_pos hrep] at h
        simp only [Except.ok.injEq] at h
        subst h
        refine runV_addMinMax_undef attr _ data (fun g' p' => ?_) g p
        simp only [addRequiredValidation, if_pos rfl]
        exact runV_notNull_undef (g' + 1) _ p' (runV_arrayOf_undef g' _ p')
      · rw [if_neg hrep] at h
        cases hm2 : createModelValidator .update reg f' (some mo) data isDraft with
        | error e => rw [hm2] at h; simp [Except.map] at h
        | ok mv =>
          rw [hm2] at h
          simp only [Except.map, Except.ok.injEq] at h
          subst h
          obtain ⟨shape, hsh⟩ := createModelValidator_ok_object _ _ _ _ _ _ _ hm2
          subst hsh
          simp only [addRequiredValidation]
          by_cases hreq : (!isDraft && attr.required) = true
          · rw [if_pos hreq]
            exact runV_notNull_undef (g + 5) _ p (runV_object_undef (g + 4) shape p)
          · rw [if_neg hreq]
            exact runV_nullable_undef (g + 5) _ p (runV_object_undef (g + 4) shape p)

/-- In update mode a dynamic-zone attribute's validator accepts
`undefined` cleanly. -/
theorem runV_update_dz_undef (reg : Registry) (f : Nat) (attr : Attr) (data : Value)
    (isDraft : Bool) (inner : VTree)
    (h : createDzValidator .update reg f attr data isDraft = .ok inner)
    (g : Nat) (p : List String) :
    runV (g + 6) inner p .undef = .ok ([], .undef) := by
  cases f with
  | zero => simp [createDzValidator] at h
  | succ f' =>
    simp only [createDzValidator, Except.ok.injEq] at h
    subst h
    refine runV_addMinMax_undef attr _ data (fun g' p' => ?_) g p
    simp only [addRequiredValidation, if_pos rfl]
    exact runV_notNull_undef (g' + 1) _ p' (runV_arrayOf_undef g' _ p')

/-- In update mode a relation attribute's validator accepts `undefined`
cleanly. -/
theorem runV_update_rel_undef (attr : Attr) (data : Value) (isDraft : Bool)
    (g : Nat) (p : List String) :
    runV (g + 6) (createRelationValidator .update attr data isDraft) p .undef
      = .ok ([], .undef) := by
  simp only [createRelationValidator, addRequiredValidation]
  by_cases hreq : (!isDraft && attr.required) = true
  · rw [if_pos hreq]
    cases data with
    | arr xs => exact runV_notNull_undef (g + 5) _ p (runV_arrayOf_undef (g + 4) _ p)
    | undef => exact runV_notNull_undef (g + 5) _ p (runV_mixed_undef (g + 4) p)
    | null => exact runV_notNull_undef (g + 5) _ p (runV_mixed_undef (g + 4) p)
    | str s => exact runV_notNull_undef (g + 5) _ p (runV_mixed_undef (g + 4) p)
    | num n => exact runV_notNull_undef (g + 5) _ p (runV_mixed_undef (g + 4) p)
    | bool b => exact runV_notNull_undef (g + 5) _ p (runV_mixed_undef (g + 4) p)
    | obj fs => exact runV_notNull_undef (g + 5) _ p (runV_mixed_undef (g + 4) p)
  · rw [if_neg hreq]
    cases data with
    | arr xs => exact runV_nullable_undef (g + 5) _ p (runV_arrayOf_undef (g + 4) _ p)
    | undef => exact runV_nullable_undef (g + 5) _ p (runV_mixed_undef (g + 4) p)
    | null => exact runV_nullable_undef (g + 5) _ p (runV_mixed_undef (g + 4) p)
    | str s => exact runV_nullable_undef (g + 5) _ p (runV_mixed_undef (g + 4) p)
    | num n => exact runV_nullable_undef (g + 5) _ p (runV_mixed_undef (g + 4) p)
    | bool b => exact runV_nullable_undef (g + 5) _ p (runV_mixed_undef (g + 4) p)
    | obj fs => exact runV_nullable_undef (g + 5) _ p (runV_mixed_undef (g + 4) p)

/-- In update mode a simple attribute's validator accepts `undefined`
cleanly. -/
theorem runV_update_simple_undef (attr : Attr) (isDraft : Bool) (g : Nat) (p : List String) :
    runV (g + 7) (createSimpleAttributeValidator .update attr isDraft) p .undef
      = .ok ([], .undef) := by
  simp only [createSimpleAttributeValidator, addRequiredValidation]
  have hbase : ∀ g', runV (g' + 1)
      (match attr.type with
       | some t => if t ∈ validators then VTree.leaf t else VTree.mixed
       | none => VTree.mixed) p .undef = .ok ([], .undef) := by
    intro g'
    rcases ht : attr.type with _ | t
    · simp [runV]
    · by_cases hc : t ∈ validators
      · simp only [if_pos hc]
        exact runV_leaf_undef g' t p
      · simp only [if_neg hc]
        exact runV_mixed_undef g' p
  by_cases hreq : (!isDraft && attr.required) = true
  · rw [if_pos hreq]
    exact runV_notNull_undef (g + 6) _ p (hbase (g + 5))
  · rw [if_neg hreq]
    exact runV_nullable_undef (g + 6) _ p (hbase (g + 5))

/-- In update mode, every built attribute validator maps `undefined` to
`undefined` with no errors: an omitted field is never defaulted and never
rejected. -/
theorem runV_update_attr_undef (reg : Registry) (fuel : Nat) (attr : Attr) (data : Value)
    (isDraft : Bool) (v : VTree)
    (h : createAttributeValidator .update reg fuel attr data isDraft = .ok v)
    (g : Nat) (p : List String) :
    runV (g + 8) v p .undef = .ok ([], .undef) := by
  cases fuel with
  | zero => simp [createAttributeValidator] at h
  | succ f =>
    simp only [createAttributeValidator] at h
    by_cases hm : isMedia attr = true
    · rw [if_pos hm] at h
      simp only [pure, Except.pure, Bind.bind, Except.bind, Except.ok.injEq] at h
      subst h
      simp only [addDefault]
      exact runV_default_undef (g + 7) _ p (runV_mixed_undef (g + 6) p)
    · rw [if_neg hm] at h
      by_cases hs : isSimpleAttribute attr = true
      · rw [if_pos hs] at h
        simp only [pure, Except.pure, Bind.bind, Except.bind, Except.ok.injEq] at h
        subst h
        simp only [addDefault]
        exact runV_default_undef (g + 7) _ p (runV_update_simple_undef attr isDraft g p)
      · rw [if_neg hs] at h
        by_cases hc : attr.type = some "component"
        · rw [if_pos hc] at h
          rw [show (do
              let y ← createComponentValidator Mode.update reg f attr data isDraft
              let y2 ← pure (preventCast y)
              pure (addDefault Mode.update attr y2)) =
            (createComponentValidator Mode.update reg f attr data isDraft >>= fun y =>
              pure (addDefault Mode.update attr (preventCast y))) from rfl] at h
          rw [exceptBind_ok] at h
          obtain ⟨inner, hi, hpc⟩ := h
          simp only [pure, Except.pure, preventCast, Except.ok.injEq] at hpc
          subst hpc
          simp only [addDefault]
          exact runV_default_undef (g + 7) _ p (runV_preventCast_undef (g + 6) _ p
            (runV_update_comp_undef reg f attr data isDraft inner hi g p))
        · rw [if_neg hc] at h
          by_cases hd : attr.type = some "dynamiczone"
          · rw [if_pos hd] at h
            rw [show (do
                let y ← createDzValidator Mode.update reg f attr data isDraft
                let y2 ← pure (preventCast y)
                pure (addDefault Mode.update attr y2)) =
              (createDzValidator Mode.update reg f attr data isDraft >>= fun y =>
                pure (addDefault Mode.update attr (preventCast y))) from rfl] at h
            rw [exceptBind_ok] at h
            obtain ⟨inner, hi, hpc⟩ := h
            simp only [pure, Except.pure, preventCast, Except.ok.injEq] at hpc
            subst hpc
            simp only [addDefault]
            exact runV_default_undef (g + 7) _ p (runV_preventCast_undef (g + 6) _ p
              (runV_update_dz_undef reg f attr data isDraft inner hi g p))
          · rw [if_neg hd] at h
            simp only [pure, Except.pure, Bind.bind, Except.bind, Except.ok.injEq] at h
            subst h
            simp only [addDefault, preventCast]
            exact runV_default_undef (g + 7) _ p (runV_preventCast_undef (g + 6) _ p
              (runV_update_rel_undef attr data isDraft g p))

end EntityValidator

namespace EntityValidator

/-- A key that appears on no field reads as `undefined`. -/
theorem getField_eq_undef_of_not_mem (k : String) :
    ∀ (l : List (String × Value)), (∀ kv ∈ l, kv.1 ≠ k) → getField k l = .undef := by
  intro l
  induction l with
  | nil => intro _; rfl
  | cons kv rest ih =>
    intro h
    simp only [getField]
    rw [if_neg (h kv (List.mem_cons_self kv rest))]
    exact ih (fun kv2 h2 => h kv2 (List.mem_cons_of_mem kv h2))

/-- Reading `undefined` from both parts of an append reads `undefined`
from the whole. -/
theorem getField_append_undef (k : String) :
    ∀ (l1 l2 : List (String × Value)), getField k l1 = .undef → getField k l2 = .undef →
      getField k (l1 ++ l2) = .undef := by
  intro l1
  induction l1 with
  | nil => intro l2 _ h2; simpa using h2
  | cons kv rest ih =>
    intro l2 h1 h2
    simp only [getField, List.cons_append]
    by_cases hk : kv.1 = k
    · rw [if_pos hk]
      simp only [getField, if_pos hk] at h1
      exact h1
    · rw [if_neg hk]
      simp only [getField, if_neg hk] at h1
      exact ih l2 h1 h2

/-- A successful shape build has the keys of its attribute list, and each
entry comes from the builder on the matching attribute. -/
theorem buildShapeWith_ok (build : String × Attr → Except String VTree) :
    ∀ (l : List (String × Attr)) (shape : List (String × VTree)),
    buildShapeWith build l = .ok shape →
    shape.map Prod.fst = l.map Prod.fst ∧
    ∀ kv ∈ shape, ∃ a, (kv.1, a) ∈ l ∧ build (kv.1, a) = .ok kv.2 := by
  intro l
  induction l with
  | nil =>
    intro shape h
    simp only [buildShapeWith, Except.ok.injEq] at h
    subst h
    exact ⟨rfl, by intro kv h; simp at h⟩
  | cons kv rest ih =>
    intro shape h
    simp only [buildShapeWith] at h
    cases hb : build (kv.1, kv.2) with
    | error e => rw [show build kv = build (kv.1, kv.2) from rfl, hb] at h; simp [Bind.bind, Except.bind] at h
    | ok v =>
      rw [show build kv = build (kv.1, kv.2) from rfl, hb] at h
      simp only [Bind.bind, Except.bind] at h
      cases hr : buildShapeWith build rest with
      | error e => rw [hr] at h; simp at h
      | ok shape' =>
        rw [hr] at h
        simp only [Except.ok.injEq] at h
        subst h
        obtain ⟨hkeys, hmem⟩ := ih shape' hr
        constructor
        · simp [hkeys]
        · intro kv2 h2
          rcases List.mem_cons.mp h2 with h2 | h2
          · subst h2
            exact ⟨kv.2, List.mem_cons_self _ _, hb⟩
          · obtain ⟨a, ha, hba⟩ := hmem kv2 h2
            exact ⟨a, List.mem_cons_of_mem _ ha, hba⟩

/-- Destructuring a successful model validator build: it is an object
shape whose keys are the writable attribute names and whose entries are
built by `createAttributeValidator` on the matching attribute. -/
theorem createModelValidator_ok_elim (m : Mode) (reg : Registry) (f : Nat) (mo : Model)
    (data : Value) (isDraft : Bool) (v : VTree)
    (h : createModelValidator m reg (f + 1) (some mo) data isDraft = .ok v) :
    ∃ shape, v = .object shape ∧
      shape.map Prod.fst =
        (mo.attributes.filter (fun kv => !(mo.nonWritable.contains kv.1))).map Prod.fst ∧
      ∀ kv ∈ shape, ∃ a,
        (kv.1, a) ∈ mo.attributes.filter (fun kv => !(mo.nonWritable.contains kv.1)) ∧
        createAttributeValidator m reg f a (getAttr data kv.1) isDraft = .ok kv.2 := by
  simp only [createModelValidator, Except.map] at h
  cases hb : buildShapeWith
      (fun kv => createAttributeValidator m reg f kv.2 (getAttr data kv.1) isDraft)
      (mo.attributes.filter (fun kv => !(mo.nonWritable.contains kv.1))) with
  | error e => rw [hb] at h; simp at h
  | ok shape =>
    rw [hb] at h
    simp only [Except.ok.injEq] at h
    subst h
    obtain ⟨hkeys, hmem⟩ := buildShapeWith_ok _ _ _ hb
    exact ⟨shape, rfl, hkeys, hmem⟩

end EntityValidator

namespace EntityValidator

/-- If every shape entry keyed `k` maps `undefined` to `undefined` cleanly
and the field `k` reads `undefined` from the input, then the normalized
field list has no defined `k` entry. -/
theorem runFieldsWith_dropped (g : Nat) (path : List String)
    (fields : List (String × Value)) (k : String) :
    ∀ (shape : List (String × VTree)) (es : List Err) (nfs : List (String × Value)),
    (∀ kv ∈ shape, kv.1 = k → ∀ p, runV g kv.2 p .undef = .ok ([], .undef)) →
    getField k fields = .undef →
    runFieldsWith (runV g) path fields shape = .ok (es, nfs) →
    getField k nfs = .undef := by
  intro shape
  induction shape with
  | nil =>
    intro es nfs _ _ h
    simp only [runFieldsWith, Except.ok.injEq, Prod.mk.injEq] at h
    rw [← h.2]
    rfl
  | cons kv rest ih =>
    intro es nfs hclean hk h
    rw [show (kv : String × VTree) = (kv.1, kv.2) from rfl] at h
    simp only [runFieldsWith] at h
    cases hrv : runV g kv.2 (path ++ [kv.1]) (getField kv.1 fields) with
    | error e => rw [hrv] at h; simp [Bind.bind, Except.bind] at h
    | ok r =>
      rw [hrv] at h
      simp only [Bind.bind, Except.bind] at h
      cases hrest : runFieldsWith (runV g) path fields rest with
      | error e => rw [hrest] at h; simp at h
      | ok r2 =>
        rw [hrest] at h
        simp only [Except.ok.injEq, Prod.mk.injEq] at h
        have hnfs : nfs = if r.2.isUndef then r2.2 else (kv.1, r.2) :: r2.2 := h.2.symm
        have hrest2 : getField k r2.2 = .undef :=
          ih r2.1 r2.2 (fun kv2 h2 => hclean kv2 (List.mem_cons_of_mem _ h2)) hk hrest
        by_cases hu : r.2.isUndef = true
        · rw [hnfs, if_pos hu]
          exact hrest2
        · rw [hnfs, if_neg hu]
          simp only [getField]
          by_cases hkk : kv.1 = k
          · exfalso
            have hthis := hclean kv (List.mem_cons_self _ _) hkk (path ++ [kv.1])
            have hval : getField kv.1 fields = .undef := by rw [hkk]; exact hk
            rw [hval] at hrv
            rw [hthis] at hrv
            simp only [Except.ok.injEq] at hrv
            rw [← hrv] at hu
            simp [Value.isUndef] at hu
          · rw [if_neg hkk]
            exact hrest2

end EntityValidator

namespace EntityValidator

/-- Errors produced by the fields runner extend the given path, provided
the child runner's errors extend its given path. -/
theorem runFieldsWith_ext (rv : VTree → List String → Value → Except String (List Err × Value))
    (path : List String) (fields : List (String × Value))
    (hrv : ∀ tv p v es nv, rv tv p v = .ok (es, nv) → ∀ e ∈ es, ∃ rest, e.path = p ++ rest) :
    ∀ (shape : List (String × VTree)) (es : List Err) (nfs : List (String × Value)),
    runFieldsWith rv path fields shape = .ok (es, nfs) →
    ∀ e ∈ es, ∃ k rest, (∃ tv, (k, tv) ∈ shape) ∧ e.path = path ++ k :: rest := by
  intro shape
  induction shape with
  | nil =>
    intro es nfs h e he
    simp only [runFieldsWith, Except.ok.injEq, Prod.mk.injEq] at h
    rw [← h.1] at he
    simp at he
  | cons kv rest ih =>
    intro es nfs h e he
    rw [show (kv : String × VTree) = (kv.1, kv.2) from rfl] at h
    simp only [runFieldsWith] at h
    cases hrv1 : rv kv.2 (path ++ [kv.1]) (getField kv.1 fields) with
    | error e2 => rw [hrv1] at h; simp [Bind.bind, Except.bind] at h
    | ok r =>
      rw [hrv1] at h
      simp only [Bind.bind, Except.bind] at h
      cases hrest : runFieldsWith rv path fields rest with
      | error e2 => rw [hrest] at h; simp at h
      | ok r2 =>
        rw [hrest] at h
        simp only [Except.ok.injEq, Prod.mk.injEq] at h
        rw [← h.1] at he
        rcases List.mem_append.mp he with he1 | he2
        · obtain ⟨tail, ht⟩ := hrv kv.2 (path ++ [kv.1]) (getField kv.1 fields) r.1 r.2
            (by rw [hrv1]) e he1
          refine ⟨kv.1, tail, ⟨kv.2, List.mem_cons_self _ _⟩, ?_⟩
          rw [ht, List.append_assoc]
          rfl
        · obtain ⟨k, tail, ⟨tv, hmem⟩, hpath⟩ := ih r2.1 r2.2 (by rw [hrest]) e he2
          exact ⟨k, tail, ⟨tv, List.mem_cons_of_mem _ hmem⟩, hpath⟩

/-- Errors produced by the elements runner extend the given path, provided
the child runner's errors extend its given path. -/
theorem runElemsWith_ext (rv : VTree → List String → Value → Except String (List Err × Value))
    (elem : Value → Except String VTree) (path : List String)
    (hrv : ∀ tv p v es nv, rv tv p v = .ok (es, nv) → ∀ e ∈ es, ∃ rest, e.path = p ++ rest) :
    ∀ (xs : List Value) (i : Nat) (es : List Err) (nvs : List Value),
    runElemsWith rv elem path i xs = .ok (es, nvs) →
    ∀ e ∈ es, ∃ rest, e.path = path ++ rest := by
  intro xs
  induction xs with
  | nil =>
    intro i es nvs h e he
    simp only [runElemsWith, Except.ok.injEq, Prod.mk.injEq] at h
    rw [← h.1] at he
    simp at he
  | cons x rest ih =>
    intro i es nvs h e he
    simp only [runElemsWith] at h
    cases he1 : elem x with
    | error e2 => rw [he1] at h; simp [Bind.bind, Except.bind] at h
    | ok t =>
      rw [he1] at h
      simp only [Bind.bind, Except.bind] at h
      cases hrv1 : rv t (path ++ [toString i]) x with
      | error e2 => rw [hrv1] at h; simp at h
      | ok r =>
        rw [hrv1] at h
        cases hrest : runElemsWith rv elem path (i + 1) rest with
        | error e2 => rw [hrest] at h; simp at h
        | ok r2 =>
          rw [hrest] at h
          simp only [Except.ok.injEq, Prod.mk.injEq] at h
          rw [← h.1] at he
          rcases List.mem_append.mp he with he1 | he2
          · obtain ⟨tail, ht⟩ := hrv t (path ++ [toString i]) x r.1 r.2 (by rw [hrv1]) e he1
            exact ⟨toString i :: tail, by rw [ht, List.append_assoc]; rfl⟩
          · exact ih (i + 1) r2.1 r2.2 (by rw [hrest]) e he2

/-- Every error reported by a validator run has a path extending the path
the validator was run at. -/
theorem runV_paths : ∀ (f : Nat) (t : VTree) (path : List String) (val : Value)
    (es : List Err) (nv : Value),
    runV f t path val = .ok (es, nv) → ∀ e ∈ es, ∃ rest, e.path = path ++ rest := by
  intro f
  induction f with
  | zero => intro t path val es nv h; simp [runV] at h
  | succ f ih =>
    intro t path val es nv h e he
    cases t with
    | mixed =>
      simp only [runV, Except.ok.injEq, Prod.mk.injEq] at h
      rw [← h.1] at he
      simp at he
    | leaf s =>
      simp only [runV, Except.ok.injEq, Prod.mk.injEq] at h
      rw [← h.1] at he
      simp at he
    | str =>
      simp only [runV] at h
      by_cases hn : val.isNil = true
      · rw [if_pos hn] at h
        simp only [Except.ok.injEq, Prod.mk.injEq] at h
        rw [← h.1] at he
        simp at he
      · rw [if_neg hn] at h
        cases val <;> simp only [Except.ok.injEq, Prod.mk.injEq] at h <;>
          rw [← h.1] at he <;> simp at he <;> exact ⟨[], by rw [he]; simp⟩
    | object shape =>
      simp only [runV] at h
      by_cases hn : val.isNil = true
      · rw [if_pos hn] at h
        simp only [Except.ok.injEq, Prod.mk.injEq] at h
        rw [← h.1] at he
        simp at he
      · rw [if_neg hn] at h
        cases val with
        | obj fields =>
          simp only [Bind.bind, Except.bind] at h
          cases hf : runFieldsWith (runV f) path fields shape with
          | error e2 => rw [hf] at h; simp at h
          | ok r =>
            rw [hf] at h
            simp only [Except.ok.injEq, Prod.mk.injEq] at h
            rw [← h.1] at he
            obtain ⟨k, tail, _, hp⟩ := runFieldsWith_ext (runV f) path fields
              (fun tv p v es' nv' hh => ih tv p v es' nv' hh) shape r.1 r.2
              (by rw [hf]) e he
            exact ⟨k :: tail, hp⟩
        | undef => simp [Value.isNil] at hn
        | null => simp [Value.isNil] at hn
        | str s =>
          simp only [Except.ok.injEq, Prod.mk.injEq] at h
          rw [← h.1] at he
          simp at he
          exact ⟨[], by rw [he]; simp⟩
        | num n =>
          simp only [Except.ok.injEq, Prod.mk.injEq] at h
          rw [← h.1] at he
          simp at he
          exact ⟨[], by rw [he]; simp⟩
        | bool b =>
          simp only [Except.ok.injEq, Prod.mk.injEq] at h
          rw [← h.1] at he
          simp at he
          exact ⟨[], by rw [he]; simp⟩
        | arr xs =>
          simp only [Except.ok.injEq, Prod.mk.injEq] at h
          rw [← h.1] at he
          simp at he
          exact ⟨[], by rw [he]; simp⟩
    | arrayOf elem =>
      simp only [runV] at h
      by_cases hn : val.isNil = true
      · rw [if_pos hn] at h
        simp only [Except.ok.injEq, Prod.mk.injEq] at h
        rw [← h.1] at he
        simp at he
      · rw [if_neg hn] at h
        cases val with
        | arr xs =>
          simp only [Bind.bind, Except.bind] at h
          cases hf : runElemsWith (runV f) elem path 0 xs with
          | error e2 => rw [hf] at h; simp at h
          | ok r =>
            rw [hf] at h
            simp only [Except.ok.injEq, Prod.mk.injEq] at h
            rw [← h.1] at he
            exact runElemsWith_ext (runV f) elem path
              (fun tv p v es' nv' hh => ih tv p v es' nv' hh) xs 0 r.1 r.2 (by rw [hf]) e he
        | undef => simp [Value.isNil] at hn
        | null => simp [Value.isNil] at hn
        | str s =>
          simp only [Except.ok.injEq, Prod.mk.injEq] at h
          rw [← h.1] at he
          simp at he
          exact ⟨[], by rw [he]; simp⟩
        | num n =>
          simp only [Except.ok.injEq, Prod.mk.injEq] at h
          rw [← h.1] at he
          simp at he
          exact ⟨[], by rw [he]; simp⟩
        | bool b =>
          simp only [Except.ok.injEq, Prod.mk.injEq] at h
          rw [← h.1] at he
          simp at he
          exact ⟨[], by rw [he]; simp⟩
        | obj fs =>
          simp only [Except.ok.injEq, Prod.mk.injEq] at h
          rw [← h.1] at he
          simp at he
          exact ⟨[], by rw [he]; simp⟩
    | notNil v =>
      simp only [runV] at h
      by_cases hn : val.isNil = true
      · rw [if_pos hn] at h
        simp only [Except.ok.injEq, Prod.mk.injEq] at h
        rw [← h.1] at he
        simp at he
        exact ⟨[], by rw [he]; simp⟩
      · rw [if_neg hn] at h
        exact ih v path val es nv h e he
    | notNull v =>
      simp only [runV] at h
      by_cases hn : val.isNull = true
      · rw [if_pos hn] at h
        simp only [Except.ok.injEq, Prod.mk.injEq] at h
        rw [← h.1] at he
        simp at he
        exact ⟨[], by rw [he]; simp⟩
      · rw [if_neg hn] at h
        exact ih v path val es nv h e he
    | nullable v =>
      simp only [runV] at h
      by_cases hn : val.isNull = true
      · rw [if_pos hn] at h
        simp only [Except.ok.injEq, Prod.mk.injEq] at h
        rw [← h.1] at he
        simp at he
      · rw [if_neg hn] at h
        exact ih v path val es nv h e he
    | required v =>
      simp only [runV] at h
      by_cases hn : val.isNil = true
      · rw [if_pos hn] at h
        simp only [Except.ok.injEq, Prod.mk.injEq] at h
        rw [← h.1] at he
        simp at he
        exact ⟨[], by rw [he]; simp⟩
      · rw [if_neg hn] at h
        exact ih v path val es nv h e he
    | default d v =>
      simp only [runV] at h
      by_cases hn : val.isUndef = true
      · rw [if_pos hn] at h
        exact ih v path d es nv h e he
      · rw [if_neg hn] at h
        exact ih v path val es nv h e he
    | min n v =>
      simp only [runV, Bind.bind, Except.bind] at h
      cases hr : runV f v path val with
      | error e2 => rw [hr] at h; simp at h
      | ok r =>
        rw [hr] at h
        cases val <;> simp only [Except.ok.injEq, Prod.mk.injEq] at h
        case arr xs =>
          rw [← h.1] at he
          by_cases hlen : (xs.length : Int) < n
          · rw [if_pos hlen] at he
            rcases List.mem_append.mp he with he1 | he2
            · exact ih v path (.arr xs) r.1 r.2 (by rw [hr]) e he1
            · simp at he2
              exact ⟨[], by rw [he2]; simp⟩
          · rw [if_neg hlen] at he
            exact ih v path (.arr xs) r.1 r.2 (by rw [hr]) e he
        all_goals
          rw [← h.1] at he
          exact ih v path _ r.1 r.2 (by rw [hr]) e he
    | max n v =>
      simp only [runV, Bind.bind, Except.bind] at h
      cases hr : runV f v path val with
      | error e2 => rw [hr] at h; simp at h
      | ok r =>
        rw [hr] at h
        cases val <;> simp only [Except.ok.injEq, Prod.mk.injEq] at h
        case arr xs =>
          rw [← h.1] at he
          by_cases hlen : n < (xs.length : Int)
          · rw [if_pos hlen] at he
            rcases List.mem_append.mp he with he1 | he2
            · exact ih v path (.arr xs) r.1 r.2 (by rw [hr]) e he1
            · simp at he2
              exact ⟨[], by rw [he2]; simp⟩
          · rw [if_neg hlen] at he
            exact ih v path (.arr xs) r.1 r.2 (by rw [hr]) e he
        all_goals
          rw [← h.1] at he
          exact ih v path _ r.1 r.2 (by rw [hr]) e he
    | oneOf names v =>
      simp only [runV, Bind.bind, Except.bind] at h
      cases hr : runV f v path val with
      | error e2 => rw [hr] at h; simp at h
      | ok r =>
        simp only [hr] at h
        by_cases hu : val.isUndef = true
        · rw [if_pos hu] at h
          simp only [Except.ok.injEq, Prod.mk.injEq] at h
          rw [← h.1] at he
          exact ih v path val r.1 r.2 (by rw [hr]) e he
        · rw [if_neg hu] at h
          cases val <;> simp only [Except.ok.injEq, Prod.mk.injEq] at h
          case neg.str s =>
            rw [← h.1] at he
            by_cases hc : names.contains s = true
            · rw [if_pos hc] at he
              exact ih v path (.str s) r.1 r.2 (by rw [hr]) e he
            · rw [if_neg hc] at he
              rcases List.mem_append.mp he with he1 | he2
              · exact ih v path (.str s) r.1 r.2 (by rw [hr]) e he1
              · simp at he2
                exact ⟨[], by rw [he2]; simp⟩
          all_goals
            rw [← h.1] at he
            rcases List.mem_append.mp he with he1 | he2
            · exact ih v path _ r.1 r.2 (by rw [hr]) e he1
            · simp at he2
              exact ⟨[], by rw [he2]; simp⟩
    | preventCast v =>
      simp only [runV, Bind.bind, Except.bind] at h
      cases hr : runV f v path val with
      | error e2 => rw [hr] at h; simp at h
      | ok r =>
        rw [hr] at h
        simp only [Except.ok.injEq, Prod.mk.injEq] at h
        rw [← h.1] at he
        exact ih v path val r.1 r.2 (by rw [hr]) e he
    | concat a b =>
      simp only [runV, Bind.bind, Except.bind] at h
      cases hr : runV f a path val with
      | error e2 => rw [hr] at h; simp at h
      | ok r =>
        simp only [hr] at h
        cases hr2 : runV f b path r.2 with
        | error e2 => simp only [hr2] at h; exact absurd h (by simp)
        | ok r2 =>
          simp only [hr2] at h
          simp only [Except.ok.injEq, Prod.mk.injEq] at h
          rw [← h.1] at he
          rcases List.mem_append.mp he with he1 | he2
          · exact ih a path val r.1 r.2 (by rw [hr]) e he1
          · exact ih b path r.2 r2.1 r2.2 (by rw [hr2]) e he2

end EntityValidator

namespace EntityValidator

/-- Top-bound inspection at the constructors `addMinMax` can produce. -/
theorem hasMinBound_min (n : Int) (v : VTree) : hasMinBound (.min n v) = true := rfl

/-- The min inspection looks through a max wrapper. -/
theorem hasMinBound_max (n : Int) (v : VTree) : hasMinBound (.max n v) = hasMinBound v := rfl

/-- The max inspection at a max wrapper. -/
theorem hasMaxBound_max (n : Int) (v : VTree) : hasMaxBound (.max n v) = true := rfl

/-- A min wrapper is not a max bound. -/
theorem hasMaxBound_min (n : Int) (v : VTree) : hasMaxBound (.min n v) = false := rfl

/-- C4: a minimum bound is set if and only if the descriptor's `min` is an
integer and the attribute is required or the incoming data is a non-empty
array; a maximum bound is set whenever the descriptor's `max` is an
integer, unconditionally. -/
theorem spec_C4_min_max_gating (attr : Attr) (v : VTree) (data : Value)
    (hv1 : hasMinBound v = false) (hv2 : hasMaxBound v = false) :
    (hasMinBound (addMinMax attr v data) = true ↔
      attr.min.isSome = true ∧ (attr.required = true ∨ isNonEmptyArray data = true)) ∧
    (hasMaxBound (addMinMax attr v data) = true ↔ attr.max.isSome = true) := by
  rcases hmin : attr.min with _ | n <;> rcases hmax : attr.max with _ | m <;>
    by_cases hr : attr.required = true <;> by_cases hne : isNonEmptyArray data = true <;>
    simp [addMinMax, hmin, hmax, hr, hne, hasMinBound_min, hasMinBound_max,
      hasMaxBound_max, hasMaxBound_min, hv1, hv2]

/-- Witness for C4 at a concrete descriptor and data slice. -/
theorem spec_C4_min_max_gating_witness :
    (hasMinBound (addMinMax tagsMin1Attr VTree.mixed (.arr [])) = true ↔
      tagsMin1Attr.min.isSome = true ∧
        (tagsMin1Attr.required = true ∨ isNonEmptyArray (.arr []) = true)) ∧
    (hasMaxBound (addMinMax tagsMin1Attr VTree.mixed (.arr [])) = true ↔
      tagsMin1Attr.max.isSome = true) :=
  spec_C4_min_max_gating tagsMin1Attr VTree.mixed (.arr []) rfl rfl

/-- C10: a media attribute's validator is an unconstrained accept-anything
node wrapped only in the default modifier: no required modifier, no
min/max, no cast prevention, and an absent media value is never rejected
(no error is reported on `undefined`, whatever the `required` flag and the
mode). -/
theorem spec_C10_media_unconstrained (m : Mode) (reg : Registry) (f : Nat) (attr : Attr)
    (data : Value) (isDraft : Bool) (hm : isMedia attr = true) :
    ∃ d, createAttributeValidator m reg (f + 1) attr data isDraft = .ok (.default d .mixed) ∧
      ∀ g p, runV (g + 2) (.default d .mixed) p .undef = .ok ([], d) := by
  have hrun : ∀ (d : Value) (g : Nat) (p : List String),
      runV (g + 2) (.default d .mixed) p .undef = .ok ([], d) := by
    intro d g p
    simp [runV, Value.isUndef]
  have hbuild : createAttributeValidator m reg (f + 1) attr data isDraft
      = .ok (addDefault m attr .mixed) := by
    simp only [createAttributeValidator]
    rw [if_pos hm]
    simp [pure, Except.pure, Bind.bind, Except.bind]
  cases m with
  | update =>
    refine ⟨.undef, ?_, hrun .undef⟩
    rw [hbuild]
    simp [addDefault]
  | creation =>
    by_cases hc : (((attr.type = some "component" && attr.repeatable) ||
        attr.type = some "dynamiczone") && !attr.required) = true
    · refine ⟨.arr [], ?_, hrun (.arr [])⟩
      rw [hbuild]
      simp only [addDefault]
      rw [if_pos hc]
    · refine ⟨attr.default, ?_, hrun attr.default⟩
      rw [hbuild]
      simp only [addDefault]
      rw [if_neg hc]

/-- Witness for C10: a required media attribute in creation mode. -/
theorem spec_C10_media_unconstrained_witness :
    ∃ d, createAttributeValidator .creation emptyReg 1 mediaAttr .undef false
        = .ok (.default d .mixed) ∧
      ∀ g p, runV (g + 2) (.default d .mixed) p .undef = .ok ([], d) :=
  spec_C10_media_unconstrained .creation emptyReg 0 mediaAttr .undef false rfl

end EntityValidator

namespace EntityValidator

/-- C5 counterexample: with schema `tags: component repeatable min 1,
target: component` in creation mode, the record with `tags: []` passes
validation (no min-length error is raised), contradicting the claim that
it fails with an error on `tags`. -/
theorem spec_C5_counterexample :
    validateEntityCreation compReg 10 (some tagsTargetModel) (.obj [("tags", .arr [])]) false
      = .ok (.obj [("tags", .arr [])]) := by
  rfl

/-- C5 amended: the declared min bound is only activated when the
attribute is required or the incoming array is non-empty, so `tags: []`
passes; the bound does fire on a non-empty array that is too short
(`min: 2` against one element) and on an empty array when the attribute
is required (`required, min: 1` against `[]`). -/
theorem spec_C5_min_gate_amended :
    validateEntityCreation compReg 10 (some tagsMin2Model) (.obj [("tags", .arr [.obj []])]) false
      = .error ⟨"ValidationError", [⟨["tags"], "must have at least 2 items"⟩]⟩ ∧
    validateEntityCreation compReg 10 (some tagsReqMin1Model) (.obj [("tags", .arr [])]) false
      = .error ⟨"ValidationError", [⟨["tags"], "must have at least 1 items"⟩]⟩ := by
  constructor <;> rfl

/-- C8 counterexample: an unresolvable component schema does not surface
as an error distinct from the user-facing aggregate validation error — the
thrown resolution error is caught by the entry point and wrapped in the
very same `ValidationError` bad request used for field errors (here with
an empty field-error list). -/
theorem spec_C8_counterexample :
    validateEntityCreation emptyReg 10 (some unresolvedModel) (.obj []) false
      = .error ⟨"ValidationError", []⟩ := by
  rfl

/-- C8 amended: when a component attribute's target schema cannot be
resolved, the builder throws `Validation failed: Model not found`, which
aborts the call before any field validation; the entry point's catch then
wraps the throw in the standard aggregate `ValidationError` bad request,
carrying no field errors — it is not surfaced as a distinct
schema-resolution error. -/
theorem spec_C8_resolution_caught (m : Mode) (reg : Registry) (f : Nat) (attr : Attr)
    (data : Value) (isDraft : Bool) (mo : Option Model) (d2 : Value) (msg : String) :
    (reg.modelsByAttribute attr = none →
      createComponentValidator m reg (f + 1) attr data isDraft
        = .error "Validation failed: Model not found") ∧
    (createModelValidator m reg f mo d2 isDraft = .error msg →
      createValidateEntity m reg f mo d2 isDraft = .error ⟨"ValidationError", []⟩) := by
  constructor
  · intro hr
    simp [createComponentValidator, hr]
  · intro hb
    simp [createValidateEntity, hb, Bind.bind, Except.bind, formatYupErrors]

/-- Witness for C8's amended theorem at a concrete unresolvable schema. -/
theorem spec_C8_resolution_caught_witness :
    (createComponentValidator .creation emptyReg 1 unresolvedCompAttr .undef false
        = .error "Validation failed: Model not found") ∧
    (createValidateEntity .creation emptyReg 10 (some unresolvedModel) (.obj []) false
        = .error ⟨"ValidationError", []⟩) :=
  ⟨(spec_C8_resolution_caught .creation emptyReg 0 unresolvedCompAttr .undef false
      (some unresolvedModel) (.obj []) "Validation failed: Model not found").1 rfl,
   (spec_C8_resolution_caught .creation emptyReg 10 unresolvedCompAttr .undef false
      (some unresolvedModel) (.obj []) "Validation failed: Model not found").2 rfl⟩

/-- C3: the entry points force presence of the record itself (an absent
record is rejected with a single required-field error at the root), and
all field errors are collected in one pass and raised as one aggregate
`ValidationError` — a record violating constraints on three independent
sibling fields yields exactly three error entries in the single aggregate
error, never one per-field exception. -/
theorem spec_C3_aggregate_errors :
    (∀ (m : Mode) (reg : Registry) (g : Nat) (mo : Option Model) (isDraft : Bool) (v : VTree),
      createModelValidator m reg (g + 1) mo .undef isDraft = .ok v →
      createValidateEntity m reg (g + 1) mo .undef isDraft
        = .error ⟨"ValidationError", [⟨[], "is a required field"⟩]⟩) ∧
    validateEntityCreation emptyReg 10 (some threeFieldModel) (.obj []) false
      = .error ⟨"ValidationError",
          [⟨["a"], "must be defined"⟩, ⟨["b"], "must be defined"⟩, ⟨["c"], "must be defined"⟩]⟩ := by
  constructor
  · intro m reg g mo isDraft v hb
    simp only [createValidateEntity, Bind.bind, Except.bind, hb]
    simp [runV, Value.isNil, formatYupErrors]
  · rfl

/-- Witness for C3's root-presence conjunct at a concrete schema. -/
theorem spec_C3_aggregate_errors_witness :
    createValidateEntity .creation emptyReg 1 none .undef false
      = .error ⟨"ValidationError", [⟨[], "is a required field"⟩]⟩ :=
  spec_C3_aggregate_errors.1 .creation emptyReg 0 none false (.object []) rfl

end EntityValidator

namespace EntityValidator

/-- C6: repeatable components and dynamic zones get the required modifier
with flag `true` on the outer sequence in both modes and regardless of
`isDraft` and of the descriptor's own `required` flag — the container
wrapper is `.notNil()` (creation) or `.notNull()` (update), never
`.nullable()`, and a null container is always rejected; each repeatable
component element is itself forced non-null. -/
theorem spec_C6_container_never_nullable :
    (∀ (m : Mode) (w : VTree),
      addRequiredValidation m true w
        = match m with | .creation => VTree.notNil w | .update => VTree.notNull w) ∧
    (∀ (m : Mode) (reg : Registry) (f : Nat) (attr : Attr) (data : Value) (isDraft : Bool)
       (mo : Model), reg.modelsByAttribute attr = some mo → attr.repeatable = true →
      createComponentValidator m reg (f + 1) attr data isDraft
        = .ok (addMinMax attr (addRequiredValidation m true (VTree.arrayOf (fun item =>
            (createModelValidator m reg f (some mo) item isDraft).map VTree.notNull))) data)) ∧
    (∀ (m : Mode) (reg : Registry) (f : Nat) (attr : Attr) (data : Value) (isDraft : Bool),
      createDzValidator m reg (f + 1) attr data isDraft
        = .ok (addMinMax attr (addRequiredValidation m true (VTree.arrayOf (fun item =>
            match dzResolve reg item with
            | some model => (createModelValidator m reg f (some model) item isDraft).map
                (fun mv => VTree.concat (dzEntryShape reg) mv)
            | none => .ok (dzEntryShape reg)))) data)) ∧
    (∀ (m : Mode) (w : VTree) (g : Nat) (p : List String),
      ∃ msg, runV (g + 1) (addRequiredValidation m true w) p .null
        = .ok ([⟨p, msg⟩], .null)) := by
  refine ⟨?_, ?_, ?_, ?_⟩
  · intro m w
    cases m <;> simp [addRequiredValidation]
  · intro m reg f attr data isDraft mo hr hrep
    simp only [createComponentValidator, hr]
    rw [if_pos hrep]
  · intro m reg f attr data isDraft
    simp only [createDzValidator]
  · intro m w g p
    cases m with
    | creation =>
      exact ⟨"must be defined", by simp [addRequiredValidation, runV, Value.isNil]⟩
    | update =>
      exact ⟨"must be non-null", by simp [addRequiredValidation, runV, Value.isNull]⟩

/-- Witness for C6 at a concrete repeatable component attribute. -/
theorem spec_C6_container_never_nullable_witness :
    createComponentValidator .creation compReg 3 tagsMin1Attr (.arr []) false
      = .ok (addMinMax tagsMin1Attr (addRequiredValidation .creation true
          (VTree.arrayOf (fun item =>
            (createModelValidator .creation compReg 2 (some compModel) item false).map
              VTree.notNull))) (.arr [])) :=
  spec_C6_container_never_nullable.2.1 .creation compReg 2 tagsMin1Attr (.arr []) false
    compModel rfl rfl

/-- C9: each dynamic-zone entry is validated as a discriminated union: the
entry shape requires a non-null object whose `__component` is a present
string belonging to the registered component names; a resolving
discriminator additionally concatenates the component's model validator,
an unresolved one checks only the entry shape. -/
theorem spec_C9_dz_discriminated_union :
    (∀ (m : Mode) (reg : Registry) (f : Nat) (attr : Attr) (data : Value) (isDraft : Bool),
      ∃ elem, createDzValidator m reg (f + 1) attr data isDraft
          = .ok (addMinMax attr (addRequiredValidation m true (VTree.arrayOf elem)) data) ∧
        (∀ item, dzResolve reg item = none → elem item = .ok (dzEntryShape reg)) ∧
        (∀ item mo, dzResolve reg item = some mo →
          elem item = (createModelValidator m reg f (some mo) item isDraft).map
            (fun mv => VTree.concat (dzEntryShape reg) mv))) ∧
    (∀ (reg : Registry) (g : Nat) (p : List String),
      runV (g + 1) (dzEntryShape reg) p .null = .ok ([⟨p, "must be non-null"⟩], .null)) ∧
    (∀ (reg : Registry) (g : Nat) (p : List String) (s : String),
      runV (g + 2) (dzEntryShape reg) p (.str s)
        = .ok ([⟨p, "must be an object"⟩], .str s)) ∧
    (∀ (reg : Registry) (g : Nat) (p : List String) (fields : List (String × Value)) (s : String),
      getField "__component" fields = .str s →
      (runV (g + 5) (dzEntryShape reg) p (.obj fields)).map Prod.fst
        = .ok (if reg.components.contains s then []
            else [⟨p ++ ["__component"], "must be one of the registered components"⟩])) ∧
    (∀ (reg : Registry) (g : Nat) (p : List String) (fields : List (String × Value)),
      getField "__component" fields = .undef →
      (runV (g + 5) (dzEntryShape reg) p (.obj fields)).map Prod.fst
        = .ok ([⟨p ++ ["__component"], "is a required field"⟩])) := by
  refine ⟨?_, ?_, ?_, ?_, ?_⟩
  · intro m reg f attr data isDraft
    refine ⟨fun item =>
      match dzResolve reg item with
      | some model => (createModelValidator m reg f (some model) item isDraft).map
          (fun mv => VTree.concat (dzEntryShape reg) mv)
      | none => .ok (dzEntryShape reg), ?_, ?_, ?_⟩
    · simp only [createDzValidator]
    · intro item hres
      simp only [hres]
    · intro item mo hres
      simp only [hres]
  · intro reg g p
    simp [dzEntryShape, runV, Value.isNull]
  · intro reg g p s
    simp [dzEntryShape, runV, Value.isNull, Value.isNil]
  · intro reg g p fields s hf
    simp [dzEntryShape, runV, Value.isNull, Value.isNil, runFieldsWith, hf,
      Bind.bind, Except.bind, Value.isUndef, Except.map]
  · intro reg g p fields hf
    simp [dzEntryShape, runV, Value.isNull, Value.isNil, runFieldsWith, hf,
      Bind.bind, Except.bind, Value.isUndef, Except.map]

/-- Witness for C9 at a concrete dynamic-zone registry. -/
theorem spec_C9_dz_discriminated_union_witness :
    (runV 6 (dzEntryShape dzReg) [] (.obj [("__component", .str "unknown.x")])).map Prod.fst
      = .ok (if dzReg.components.contains "unknown.x" then []
          else [⟨["__component"], "must be one of the registered components"⟩]) :=
  spec_C9_dz_discriminated_union.2.2.2.1 dzReg 1 [] [("__component", .str "unknown.x")]
    "unknown.x" rfl

end EntityValidator

namespace EntityValidator

/-- C2: simple, singular-component, and relation attributes apply the
required modifier with the effective flag `!isDraft && required`;
`isDraft = true` therefore suppresses requiredness (the node is marked
nullable); when the effective flag holds, creation mode rejects an absent
value (`.notNil()`) while update mode accepts absence and rejects only an
explicit null (`.notNull()`); when the flag is false, the node is marked
nullable. -/
theorem spec_C2_required_enforcement :
    (∀ (m : Mode) (attr : Attr) (isDraft : Bool),
      ∃ base, createSimpleAttributeValidator m attr isDraft
        = addRequiredValidation m (!isDraft && attr.required) base) ∧
    (∀ (m : Mode) (reg : Registry) (f : Nat) (attr : Attr) (data : Value) (isDraft : Bool)
       (mo : Model) (v : VTree), reg.modelsByAttribute attr = some mo →
      ¬ attr.repeatable = true →
      createModelValidator m reg f (some mo) data isDraft = .ok v →
      createComponentValidator m reg (f + 1) attr data isDraft
        = .ok (addRequiredValidation m (!isDraft && attr.required) v)) ∧
    (∀ (m : Mode) (attr : Attr) (data : Value) (isDraft : Bool),
      ∃ base, createRelationValidator m attr data isDraft
        = addRequiredValidation m (!isDraft && attr.required) base) ∧
    (∀ (m : Mode) (attr : Attr),
      ∃ base, createSimpleAttributeValidator m attr true = VTree.nullable base) ∧
    (∀ (m : Mode) (w : VTree), addRequiredValidation m false w = VTree.nullable w) ∧
    (∀ (m : Mode) (w : VTree), addRequiredValidation m true w
      = match m with | .creation => VTree.notNil w | .update => VTree.notNull w) ∧
    (∀ (g : Nat) (w : VTree) (p : List String),
      runV (g + 1) (.notNil w) p .undef = .ok ([⟨p, "must be defined"⟩], .undef)) ∧
    (∀ (g : Nat) (w : VTree) (p : List String),
      runV (g + 1) (.notNull w) p .undef = runV g w p .undef) ∧
    (∀ (g : Nat) (w : VTree) (p : List String),
      runV (g + 1) (.notNull w) p .null = .ok ([⟨p, "must be non-null"⟩], .null)) := by
  refine ⟨?_, ?_, ?_, ?_, ?_, ?_, ?_, ?_, ?_⟩
  · intro m attr isDraft
    exact ⟨_, rfl⟩
  · intro m reg f attr data isDraft mo v hr hrep hb
    simp only [createComponentValidator, hr]
    rw [if_neg hrep]
    simp [hb, Except.map]
  · intro m attr data isDraft
    exact ⟨_, rfl⟩
  · intro m attr
    refine ⟨(match attr.type with
      | some t => if t ∈ validators then VTree.leaf t else VTree.mixed
      | none => VTree.mixed), ?_⟩
    simp [createSimpleAttributeValidator, addRequiredValidation]
  · intro m w
    simp [addRequiredValidation]
  · intro m w
    cases m <;> simp [addRequiredValidation]
  · intro g w p
    simp [runV, Value.isNil]
  · intro g w p
    simp [runV, Value.isNull]
  · intro g w p
    simp [runV, Value.isNull]

/-- Witness for C2 at a concrete singular component attribute. -/
theorem spec_C2_required_enforcement_witness :
    createComponentValidator .creation compReg 2 targetAttr .undef false
      = .ok (addRequiredValidation .creation (!false && targetAttr.required)
          (.object [])) :=
  spec_C2_required_enforcement.2.1 .creation compReg 1 targetAttr .undef false
    compModel (.object []) rfl (by simp [targetAttr]) rfl

end EntityValidator

namespace EntityValidator

/-- Every successfully built attribute validator is the default modifier
wrapped around some inner validator. -/
theorem createAttributeValidator_ok_default (m : Mode) (reg : Registry) (fuel : Nat)
    (attr : Attr) (data : Value) (isDraft : Bool) (v : VTree)
    (h : createAttributeValidator m reg (fuel + 1) attr data isDraft = .ok v) :
    ∃ inner, v = addDefault m attr inner := by
  simp only [createAttributeValidator] at h
  by_cases hm : isMedia attr = true
  · rw [if_pos hm] at h
    simp only [pure, Except.pure, Bind.bind, Except.bind, Except.ok.injEq] at h
    exact ⟨VTree.mixed, h.symm⟩
  · rw [if_neg hm] at h
    by_cases hs : isSimpleAttribute attr = true
    · rw [if_pos hs] at h
      simp only [pure, Except.pure, Bind.bind, Except.bind, Except.ok.injEq] at h
      exact ⟨_, h.symm⟩
    · rw [if_neg hs] at h
      by_cases hc : attr.type = some "component"
      · rw [if_pos hc] at h
        rw [show (do
            let y ← createComponentValidator m reg fuel attr data isDraft
            let y2 ← pure (preventCast y)
            pure (addDefault m attr y2)) =
          (createComponentValidator m reg fuel attr data isDraft >>= fun y =>
            pure (addDefault m attr (preventCast y))) from rfl] at h
        rw [exceptBind_ok] at h
        obtain ⟨inner, _, hpc⟩ := h
        simp only [pure, Except.pure, Except.ok.injEq] at hpc
        exact ⟨preventCast inner, hpc.symm⟩
      · rw [if_neg hc] at h
        by_cases hd : attr.type = some "dynamiczone"
        · rw [if_pos hd] at h
          rw [show (do
              let y ← createDzValidator m reg fuel attr data isDraft
              let y2 ← pure (preventCast y)
              pure (addDefault m attr y2)) =
            (createDzValidator m reg fuel attr data isDraft >>= fun y =>
              pure (addDefault m attr (preventCast y))) from rfl] at h
          rw [exceptBind_ok] at h
          obtain ⟨inner, _, hpc⟩ := h
          simp only [pure, Except.pure, Except.ok.injEq] at hpc
          exact ⟨preventCast inner, hpc.symm⟩
        · rw [if_neg hd] at h
          simp only [pure, Except.pure, Bind.bind, Except.bind, Except.ok.injEq] at h
          exact ⟨_, h.symm⟩

/-- In creation mode `addDefault` installs exactly the claim's default
value. -/
theorem addDefault_creation_spec (attr : Attr) (w : VTree) :
    addDefault .creation attr w = .default (specCreationDefault attr) w := by
  simp only [addDefault, specCreationDefault]
  by_cases hc : (((attr.type = some "component" && attr.repeatable) ||
      attr.type = some "dynamiczone") && !attr.required) = true
  · rw [if_pos hc]
    simp only [Bool.and_eq_true, Bool.or_eq_true, decide_eq_true_eq,
      Bool.not_eq_true'] at hc
    rw [if_pos (by tauto)]
  · rw [if_neg hc]
    simp only [Bool.and_eq_true, Bool.or_eq_true, decide_eq_true_eq,
      Bool.not_eq_true'] at hc
    rw [if_neg (by tauto)]

end EntityValidator

namespace EntityValidator

/-- C1: default injection is mode-dependent — in creation mode every built
attribute validator's default is the descriptor's `default`, except that a
repeatable component or dynamic zone with `required` false defaults to the
empty collection; in update mode the default is always `undefined`, and an
omitted field stays absent in the normalized output (it is never filled
from the descriptor's default). -/
theorem spec_C1_default_injection :
    (∀ (reg : Registry) (f : Nat) (attr : Attr) (data : Value) (isDraft : Bool) (v : VTree),
      createAttributeValidator .creation reg (f + 1) attr data isDraft = .ok v →
      ∃ inner, v = .default (specCreationDefault attr) inner) ∧
    (∀ (reg : Registry) (f : Nat) (attr : Attr) (data : Value) (isDraft : Bool) (v : VTree),
      createAttributeValidator .update reg (f + 1) attr data isDraft = .ok v →
      (∃ inner, v = .default .undef inner) ∧
      ∀ g p, runV (g + 8) v p .undef = .ok ([], .undef)) ∧
    (∀ (reg : Registry) (fuel : Nat) (mo : Model) (data : Value) (isDraft : Bool) (v : VTree)
       (g : Nat) (fields : List (String × Value)) (k : String) (es : List Err) (nv : Value),
      createModelValidator .update reg fuel (some mo) data isDraft = .ok v →
      (∀ kv ∈ fields, kv.1 ≠ k) →
      runV (g + 9) v [] (.obj fields) = .ok (es, nv) →
      getAttr nv k = .undef) := by
  refine ⟨?_, ?_, ?_⟩
  · intro reg f attr data isDraft v h
    obtain ⟨inner, hv⟩ := createAttributeValidator_ok_default _ _ _ _ _ _ _ h
    exact ⟨inner, by rw [hv, addDefault_creation_spec]⟩
  · intro reg f attr data isDraft v h
    constructor
    · obtain ⟨inner, hv⟩ := createAttributeValidator_ok_default _ _ _ _ _ _ _ h
      exact ⟨inner, by rw [hv]; simp [addDefault]⟩
    · exact runV_update_attr_undef reg (f + 1) attr data isDraft v h
  · intro reg fuel mo data isDraft v g fields k es nv hb homit hrun
    cases fuel with
    | zero => simp [createModelValidator] at hb
    | succ f =>
      obtain ⟨shape, hv, hkeys, hmem⟩ := createModelValidator_ok_elim _ _ _ _ _ _ _ hb
      subst hv
      rw [show runV (g + 9) (.object shape) [] (.obj fields)
          = (runFieldsWith (runV (g + 8)) [] fields shape >>= fun r =>
              .ok (r.1, .obj (r.2 ++
                fields.filter (fun kv => !(shape.any (fun sv => sv.1 == kv.1))))))
        from rfl] at hrun
      cases hf : runFieldsWith (runV (g + 8)) [] fields shape with
      | error e2 => rw [hf] at hrun; simp [Bind.bind, Except.bind] at hrun
      | ok r =>
        rw [hf] at hrun
        simp only [Bind.bind, Except.bind, Except.ok.injEq, Prod.mk.injEq] at hrun
        rw [← hrun.2]
        simp only [getAttr]
        apply getField_append_undef
        · refine runFieldsWith_dropped (g + 8) [] fields k shape r.1 r.2 ?_ ?_ (by rw [hf])
          · intro kv hkv hk p
            obtain ⟨a, hma, hbuild⟩ := hmem kv hkv
            exact runV_update_attr_undef reg f a (getAttr data kv.1) isDraft kv.2 hbuild g p
          · exact getField_eq_undef_of_not_mem k fields homit
        · apply getField_eq_undef_of_not_mem
          intro kv hkv
          exact homit kv (List.mem_of_mem_filter hkv)

/-- Witness for C1 at a concrete required string attribute in update
mode: the built validator defaults to `undefined` and maps an omitted
value to an omitted value. -/
theorem spec_C1_default_injection_witness :
    (∃ inner, VTree.default .undef (.notNull (.leaf "string")) = .default .undef inner) ∧
    ∀ g p, runV (g + 8) (VTree.default .undef (.notNull (.leaf "string"))) p .undef
      = .ok ([], .undef) :=
  spec_C1_default_injection.2.1 emptyReg 0 reqStringAttr .undef false
    (.default .undef (.notNull (.leaf "string"))) rfl

end EntityValidator

namespace EntityValidator

/-- C7: the model validator built over a schema contains no child
validator for a non-writable attribute, no reported error path ever starts
with a non-writable attribute name, and an absent schema is treated as
having no attributes at all. -/
theorem spec_C7_non_writable_excluded :
    (∀ (m : Mode) (reg : Registry) (f : Nat) (mo : Model) (data : Value) (isDraft : Bool)
       (v : VTree) (a : String),
      createModelValidator m reg (f + 1) (some mo) data isDraft = .ok v →
      a ∈ mo.nonWritable →
      (∃ shape, v = .object shape ∧ ∀ kv ∈ shape, kv.1 ≠ a) ∧
      (∀ (g : Nat) (d : Value) (es : List Err) (nv : Value),
        runV g (VTree.required v) [] d = .ok (es, nv) →
        ∀ e ∈ es, e.path.head? ≠ some a)) ∧
    (∀ (m : Mode) (reg : Registry) (f : Nat) (data : Value) (isDraft : Bool),
      createModelValidator m reg (f + 1) none data isDraft = .ok (.object [])) := by
  constructor
  · intro m reg f mo data isDraft v a hb ha
    obtain ⟨shape, hv, hkeys, hmem⟩ := createModelValidator_ok_elim _ _ _ _ _ _ _ hb
    have hne : ∀ kv ∈ shape, kv.1 ≠ a := by
      intro kv hkv
      obtain ⟨a2, hma, _⟩ := hmem kv hkv
      have hf2 := List.mem_filter.mp hma
      intro heq
      rw [heq] at hf2
      have : a ∉ mo.nonWritable := by simpa using hf2.2
      exact this ha
    refine ⟨⟨shape, hv, hne⟩, ?_⟩
    subst hv
    intro g d es nv hrun e he
    cases g with
    | zero => simp [runV] at hrun
    | succ g' =>
      simp only [runV] at hrun
      by_cases hn : d.isNil = true
      · rw [if_pos hn] at hrun
        simp only [Except.ok.injEq, Prod.mk.injEq] at hrun
        rw [← hrun.1] at he
        simp only [List.mem_singleton] at he
        subst he
        simp
      · rw [if_neg hn] at hrun
        cases g' with
        | zero => simp [runV] at hrun
        | succ g'' =>
          cases d with
          | undef => simp [Value.isNil] at hn
          | null => simp [Value.isNil] at hn
          | obj fields =>
            rw [show runV (g'' + 1) (.object shape) [] (.obj fields)
                = (runFieldsWith (runV g'') [] fields shape >>= fun r =>
                    .ok (r.1, .obj (r.2 ++
                      fields.filter (fun kv => !(shape.any (fun sv => sv.1 == kv.1))))))
              from rfl] at hrun
            cases hf2 : runFieldsWith (runV g'') [] fields shape with
            | error e2 => rw [hf2] at hrun; simp [Bind.bind, Except.bind] at hrun
            | ok r =>
              rw [hf2] at hrun
              simp only [Bind.bind, Except.bind, Except.ok.injEq, Prod.mk.injEq] at hrun
              rw [← hrun.1] at he
              obtain ⟨k, rest, ⟨tv, hmem2⟩, hp⟩ := runFieldsWith_ext (runV g'') [] fields
                (fun tv p v es' nv' hh => runV_paths g'' tv p v es' nv' hh)
                shape r.1 r.2 (by rw [hf2]) e he
              rw [hp]
              simp only [List.nil_append, List.head?_cons, Option.some.injEq]
              intro hk
              exact hne (k, tv) hmem2 (by simpa using hk)
          | str s =>
            simp [runV, Value.isNil] at hrun
            obtain ⟨h1, h2⟩ := hrun
            subst es
            simp only [List.mem_singleton] at he
            subst he
            simp
          | num n =>
            simp [runV, Value.isNil] at hrun
            obtain ⟨h1, h2⟩ := hrun
            subst es
            simp only [List.mem_singleton] at he
            subst he
            simp
          | bool b =>
            simp [runV, Value.isNil] at hrun
            obtain ⟨h1, h2⟩ := hrun
            subst es
            simp only [List.mem_singleton] at he
            subst he
            simp
          | arr xs =>
            simp [runV, Value.isNil] at hrun
            obtain ⟨h1, h2⟩ := hrun
            subst es
            simp only [List.mem_singleton] at he
            subst he
            simp
  · intro m reg f data isDraft
    rfl

/-- Witness for C7 at a concrete schema with a non-writable attribute. -/
theorem spec_C7_non_writable_excluded_witness :
    (∃ shape, VTree.object [("a", .default .undef (.notNil (.leaf "string")))]
        = .object shape ∧ ∀ kv ∈ shape, kv.1 ≠ "sys") ∧
    (∀ (g : Nat) (d : Value) (es : List Err) (nv : Value),
      runV g (VTree.required (.object [("a", .default .undef (.notNil (.leaf "string")))]))
          [] d = .ok (es, nv) →
      ∀ e ∈ es, e.path.head? ≠ some "sys") :=
  spec_C7_non_writable_excluded.1 .creation emptyReg 1 nonWritableModel (.obj []) false
    (.object [("a", .default .undef (.notNil (.leaf "string")))]) "sys" rfl
    (by simp [nonWritableModel])

end EntityValidator
